import Mathlib

/-!
Shallow embedding of `src/ffi/raw/rtc_peerconnection_configure.rs` from
mycrl/librtcrs: the value-form configuration types (`RTCIceServer`,
`RTCConfiguration`), their flat raw mirrors (`RawRTCIceServer`,
`RawRTCPeerConnectionConfigure`), the `Into` encode conversions and the
`Drop` release paths.

Memory is modelled explicitly: a `Heap` is a bump allocator holding the
live allocations (C strings, pointer arrays, raw-server arrays, boxes),
each identified by a numeric address.  Encoding is state passing over the
heap; `CString::new(..).unwrap()` failure (an embedded null byte) is the
`panic` outcome, and an invalid deallocation (`CString::from_raw` on a
pointer that is not a live C string, such as a null pointer) is modelled
as `none` / the `ub` outcome.  Rust `String`s are modelled as their byte
lists (`RStr`).
-/

set_option autoImplicit false

/-- A Rust string, as its list of bytes. -/
abbrev RStr := List Nat

/-- True when the string holds an embedded null byte; `CString::new`
rejects exactly these inputs. -/
def hasNul (s : RStr) : Bool := s.contains 0

/-- A raw pointer: null, the dangling sentinel produced by
`Vec::into_raw_parts` on an empty vector, or the address of a live
allocation. -/
inductive Ptr where
  | null
  | dangling
  | addr (a : Nat)
deriving DecidableEq

/-- Mirror of `RawRTCIceServer` (source lines 30-37), fields in the
declared `repr(C)` order: credential, urls, urls_size, urls_capacity,
username.  The `u8` size and capacity fields are naturals kept below 256
by the `as u8` truncation performed at construction. -/
structure RawRTCIceServer where
  credential : Ptr
  urls : Ptr
  urls_size : Nat
  urls_capacity : Nat
  username : Ptr
deriving DecidableEq

/-- Mirror of `RawRTCPeerConnectionConfigure` (source lines 55-65) in
declared field order. -/
structure RawRTCPeerConnectionConfigure where
  bundle_policy : Nat
  ice_transport_policy : Nat
  peer_identity : Ptr
  rtcp_mux_policy : Nat
  ice_servers : Ptr
  ice_servers_size : Nat
  ice_servers_capacity : Nat
  ice_candidate_pool_size : Nat
deriving DecidableEq

/-- One live allocation: a null-terminated C string buffer (bytes include
the terminator), a `Vec<*const c_char>` buffer, a `Vec<RawRTCIceServer>`
buffer, or a `Box<RawRTCPeerConnectionConfigure>` cell. -/
inductive Alloc where
  | cstring (bytes : List Nat)
  | ptrArray (elems : List Ptr)
  | serverArray (elems : List RawRTCIceServer)
  | box (cfg : RawRTCPeerConnectionConfigure)
deriving DecidableEq

/-- The allocator state: the next fresh address and the association list
of live blocks (most recent first). -/
structure Heap where
  next : Nat
  blocks : List (Nat × Alloc)
deriving DecidableEq

/-- Association-list lookup by address. -/
def lookupA : List (Nat × Alloc) → Nat → Option Alloc
  | [], _ => none
  | (k, v) :: rest, a => if a = k then some v else lookupA rest a

/-- Remove the block at an address; `none` when no such block is live
(an invalid or double free). -/
def removeA : List (Nat × Alloc) → Nat → Option (List (Nat × Alloc))
  | [], _ => none
  | (k, v) :: rest, a =>
    if a = k then some rest else (removeA rest a).map (fun bs => (k, v) :: bs)

def Heap.lookup (h : Heap) (a : Nat) : Option Alloc := lookupA h.blocks a

/-- Allocate a fresh block, returning its pointer. -/
def Heap.alloc (h : Heap) (b : Alloc) : Ptr × Heap :=
  (Ptr.addr h.next, ⟨h.next + 1, (h.next, b) :: h.blocks⟩)

/-- Deallocate the block at `a`; `none` models an invalid free. -/
def Heap.free (h : Heap) (a : Nat) : Option Heap :=
  (removeA h.blocks a).map (fun bs => ⟨h.next, bs⟩)

def emptyHeap : Heap := ⟨0, []⟩

/-- Every live address is below the bump counter. -/
def Heap.wf (h : Heap) : Prop := ∀ p ∈ h.blocks, p.1 < h.next

instance (h : Heap) : Decidable h.wf := by
  unfold Heap.wf; infer_instance

/-- Error kinds named by the specification (section 7).  The embedded
code never constructs these: the source `Into` conversions are
infallible and panic via `unwrap` instead.  The constructor exists so
the specification's surfaced-error contract can be stated and compared
against what the code actually returns. -/
inductive EncodeError where
  | InvalidUtf8Content
  | InvalidEnumState
  | CapacityOverflow
deriving DecidableEq

/-- Outcome of an encode step: success with the produced value and heap,
a surfaced error (never produced by the embedded source), a panic
(`unwrap` on a failed `CString::new`) with the heap as the unwind leaves
it, or undefined behaviour met while dropping during unwind. -/
inductive Res (α : Type) where
  | ok (v : α) (h : Heap)
  | err (e : EncodeError) (h : Heap)
  | panic (h : Heap)
  | ub
deriving DecidableEq

def Res.isPanic {α : Type} : Res α → Bool
  | .panic _ => true
  | _ => false

def Res.isErr {α : Type} : Res α → Bool
  | .err _ _ => true
  | _ => false

def Res.okVal? {α : Type} : Res α → Option α
  | .ok v _ => some v
  | _ => none

/-- Sequence two encode steps, propagating error, panic and undefined
behaviour. -/
def Res.bind {α β : Type} (x : Res α) (f : α → Heap → Res β) : Res β :=
  match x with
  | .ok v h => f v h
  | .err e h => .err e h
  | .panic h => .panic h
  | .ub => .ub

/-- Mirror of `BundelPolicy` (source lines 6-12, name kept as spelled in
the source), `repr(u8)` with discriminants starting at 1. -/
inductive BundelPolicy where
  | Balanced
  | MaxCompat
  | MaxBundle
deriving DecidableEq

/-- The `as u8` cast of a `BundelPolicy` value: its declared
discriminant (`Balanced = 1`, the rest auto-increment). -/
def BundelPolicy.toU8 : BundelPolicy → Nat
  | .Balanced => 1
  | .MaxCompat => 2
  | .MaxBundle => 3

/-- The variants of `BundelPolicy` in source declaration order. -/
def BundelPolicy.declaredVariants : List BundelPolicy :=
  [.Balanced, .MaxCompat, .MaxBundle]

/-- Mirror of `IceTransportPolicy` (source lines 14-21). -/
inductive IceTransportPolicy where
  | None
  | Relay
  | Public
  | All
deriving DecidableEq

/-- The `as u8` cast of an `IceTransportPolicy` value (`None = 1`). -/
def IceTransportPolicy.toU8 : IceTransportPolicy → Nat
  | .None => 1
  | .Relay => 2
  | .Public => 3
  | .All => 4

/-- The variants of `IceTransportPolicy` in source declaration order. -/
def IceTransportPolicy.declaredVariants : List IceTransportPolicy :=
  [.None, .Relay, .Public, .All]

/-- Mirror of `RtcpMuxPolicy` (source lines 23-28). -/
inductive RtcpMuxPolicy where
  | Negotiate
  | Require
deriving DecidableEq

/-- The `as u8` cast of an `RtcpMuxPolicy` value (`Negotiate = 1`). -/
def RtcpMuxPolicy.toU8 : RtcpMuxPolicy → Nat
  | .Negotiate => 1
  | .Require => 2

/-- The variants of `RtcpMuxPolicy` in source declaration order. -/
def RtcpMuxPolicy.declaredVariants : List RtcpMuxPolicy :=
  [.Negotiate, .Require]

/-- One-based position of a value in a list of declared variants; the
specification's "ordinal assigned starting at 1, in declaration
order". -/
def ordIn {α : Type} [DecidableEq α] : List α → α → Nat
  | [], _ => 0
  | x :: xs, v => if v = x then 1 else ordIn xs v + 1

/-- Mirror of the value-form `RTCIceServer` (source lines 96-107). -/
structure RTCIceServer where
  credential : Option RStr
  username : Option RStr
  urls : Option (List RStr)
deriving DecidableEq

/-- Mirror of the value-form `RTCConfiguration` (source lines 141-181).
`ice_candidate_pool_size` is a `u8` in the source; its values lie in
`0..=255`. -/
structure RTCConfiguration where
  bundle_policy : Option BundelPolicy := none
  ice_transport_policy : Option IceTransportPolicy := none
  peer_identity : Option RStr := none
  rtcp_mux_policy : Option RtcpMuxPolicy := none
  ice_servers : Option (List RTCIceServer) := none
  ice_candidate_pool_size : Option Nat := none
deriving DecidableEq

/-- The `Default` derive on the source structs: every field `None`. -/
def RTCIceServer.default : RTCIceServer := ⟨none, none, none⟩

/-- The `Default` derive on `RTCConfiguration`: every field `None`. -/
def RTCConfiguration.default : RTCConfiguration :=
  ⟨none, none, none, none, none, none⟩

/-- `CString::new(s)`: `None` exactly when `s` holds an embedded null
byte (the `NulError` case), otherwise the null-terminated buffer. -/
def cstringNew (s : RStr) : Option (List Nat) :=
  if hasNul s then none else some (s ++ [0])

/-- `CString::new(s).unwrap().into_raw()`: allocate the buffer and leak
its ownership as a raw pointer; `none` is the `unwrap` panic. -/
def cstringIntoRaw (s : RStr) (h : Heap) : Option (Ptr × Heap) :=
  (cstringNew s).map (fun bytes => h.alloc (.cstring bytes))

/-- The `opt.map(|s| CString::new(s).unwrap().into_raw()).unwrap_or(null)`
pattern used for `credential`, `username` and `peer_identity`. -/
def encodeOptRStr (o : Option RStr) (h : Heap) : Res Ptr :=
  match o with
  | none => .ok Ptr.null h
  | some s =>
    match cstringIntoRaw s h with
    | some (p, h') => .ok p h'
    | none => .panic h

/-- The per-element conversion inside the `urls` map: each string to a
leaked C string, left to right; a panic leaves the earlier raw pointers
allocated (they are plain `*const c_char`, not dropped on unwind). -/
def encodeStringList : List RStr → Heap → Res (List Ptr)
  | [], h => .ok [] h
  | s :: rest, h =>
    match cstringIntoRaw s h with
    | none => .panic h
    | some (p, h') =>
      match encodeStringList rest h' with
      | .ok ps h'' => .ok (p :: ps) h''
      | .err e h'' => .err e h''
      | .panic h'' => .panic h''
      | .ub => .ub

/-- `collect::<Vec<_>>().into_raw_parts()` over the encoded urls: the
collect from an exactly sized iterator builds the vector with capacity
equal to its length; an empty vector carries the dangling sentinel
pointer and no allocation, a non-empty one is a fresh array block.  The
`unwrap_or` branch maps `None` to `(null, 0, 0)` (source line 119). -/
def encodeUrlsTuple (o : Option (List RStr)) (h : Heap) : Res (Ptr × Nat × Nat) :=
  match o with
  | none => .ok (Ptr.null, 0, 0) h
  | some v =>
    (encodeStringList v h).bind fun ps h' =>
      if ps.isEmpty then .ok (Ptr.dangling, 0, 0) h'
      else
        let (p, h'') := h'.alloc (.ptrArray ps)
        .ok (p, ps.length, ps.length) h''

/-- `impl Into<RawRTCIceServer> for RTCIceServer` (source lines
109-135): the urls tuple is computed first, then the struct literal
evaluates `credential` and then `username`; the `u8` fields are the
`as u8` truncations of the vector length and capacity. -/
def RTCIceServer.intoRaw (v : RTCIceServer) (h : Heap) : Res RawRTCIceServer :=
  (encodeUrlsTuple v.urls h).bind fun t h1 =>
    (encodeOptRStr v.credential h1).bind fun cred h2 =>
      (encodeOptRStr v.username h2).bind fun user h3 =>
        .ok ⟨cred, t.1, t.2.1 % 256, t.2.2 % 256, user⟩ h3

/-- Drop order of `RawRTCIceServer` (source lines 39-53), pieces first:
`CString::from_raw(p)` reads the buffer through `strlen` and retakes
ownership; on a null or dangling pointer, or a pointer that is not a
live C string, this is undefined behaviour (`none`). -/
def cstringFromRawDrop (p : Ptr) (h : Heap) : Option Heap :=
  match p with
  | .addr a =>
    match h.lookup a with
    | some (.cstring _) => h.free a
    | _ => none
  | _ => none

/-- `Vec::from_raw_parts(p, size, cap)` for a `Vec<*const c_char>`,
returning the recovered elements.  With capacity 0 no deallocation
occurs whatever the pointer (the operational effect of the source's
reconstruct with truncated counts); with nonzero capacity the pointer
must be a live array block whose allocated capacity matches `cap`, and
`size` elements are read from it. -/
def ptrsFromRawParts (p : Ptr) (size cap : Nat) (h : Heap) :
    Option (List Ptr × Heap) :=
  if cap = 0 then
    if size = 0 then some ([], h) else none
  else
    match p with
    | .addr a =>
      match h.lookup a with
      | some (.ptrArray elems) =>
        if cap = elems.length ∧ size ≤ elems.length then
          (h.free a).map (fun h' => (elems.take size, h'))
        else none
      | _ => none
    | _ => none

/-- Release every C string in the recovered urls vector, left to
right. -/
def dropPtrList : List Ptr → Heap → Option Heap
  | [], h => some h
  | p :: rest, h =>
    match cstringFromRawDrop p h with
    | some h' => dropPtrList rest h'
    | none => none

/-- `impl Drop for RawRTCIceServer` (source lines 39-53): retake the
credential, the username, then the urls vector and each url string.
The vector buffer's deallocation is folded into the reconstruction; it
frees the same set of blocks as the source's end-of-loop drop. -/
def rawIceServerDrop (r : RawRTCIceServer) (h : Heap) : Option Heap :=
  match cstringFromRawDrop r.credential h with
  | none => none
  | some h1 =>
    match cstringFromRawDrop r.username h1 with
    | none => none
    | some h2 =>
      match ptrsFromRawParts r.urls r.urls_size r.urls_capacity h2 with
      | none => none
      | some (ps, h3) => dropPtrList ps h3

/-- Drop a list of raw servers in order (the element drops run by a
`Vec<RawRTCIceServer>` being dropped). -/
def dropServers : List RawRTCIceServer → Heap → Option Heap
  | [], h => some h
  | r :: rest, h =>
    match rawIceServerDrop r h with
    | some h' => dropServers rest h'
    | none => none

/-- `Vec::from_raw_parts` for a `Vec<RawRTCIceServer>`, mirror of
`ptrsFromRawParts`. -/
def serversFromRawParts (p : Ptr) (size cap : Nat) (h : Heap) :
    Option (List RawRTCIceServer × Heap) :=
  if cap = 0 then
    if size = 0 then some ([], h) else none
  else
    match p with
    | .addr a =>
      match h.lookup a with
      | some (.serverArray elems) =>
        if cap = elems.length ∧ size ≤ elems.length then
          (h.free a).map (fun h' => (elems.take size, h'))
        else none
      | _ => none
    | _ => none

/-- `impl Drop for RawRTCPeerConnectionConfigure` (source lines 67-78):
retake the peer identity string, then the server vector; dropping the
reconstructed vector drops each raw server. -/
def rawConfigureDrop (r : RawRTCPeerConnectionConfigure) (h : Heap) :
    Option Heap :=
  match cstringFromRawDrop r.peer_identity h with
  | none => none
  | some h1 =>
    match serversFromRawParts r.ice_servers r.ice_servers_size
        r.ice_servers_capacity h1 with
    | none => none
    | some (rs, h2) => dropServers rs h2

/-- The `ice_servers` map inside the configuration conversion: each
server is cloned and converted in order.  When a later conversion
panics, the partially collected `Vec<RawRTCIceServer>` is dropped during
unwind, running each collected element's `Drop`; the model performs
those drops innermost first, freeing the same set of blocks.  A failing
drop during unwind is undefined behaviour. -/
def encodeServerList : List RTCIceServer → Heap → Res (List RawRTCIceServer)
  | [], h => .ok [] h
  | s :: rest, h =>
    match s.intoRaw h with
    | .ok r h1 =>
      match encodeServerList rest h1 with
      | .ok rs h2 => .ok (r :: rs) h2
      | .err e h2 => .err e h2
      | .panic h2 =>
        match rawIceServerDrop r h2 with
        | some h3 => .panic h3
        | none => .ub
      | .ub => .ub
    | .err e h1 => .err e h1
    | .panic h1 => .panic h1
    | .ub => .ub

/-- The servers tuple of the configuration conversion (source lines
185-193), with the `unwrap_or((null, 0, 0))` branch for `None`. -/
def encodeServersTuple (o : Option (List RTCIceServer)) (h : Heap) :
    Res (Ptr × Nat × Nat) :=
  match o with
  | none => .ok (Ptr.null, 0, 0) h
  | some l =>
    (encodeServerList l h).bind fun rs h' =>
      if rs.isEmpty then .ok (Ptr.dangling, 0, 0) h'
      else
        let (p, h'') := h'.alloc (.serverArray rs)
        .ok (p, rs.length, rs.length) h''

/-- `impl Into<RawRTCPeerConnectionConfigure> for RTCConfiguration`
(source lines 183-209): the servers tuple first, then the struct
literal, whose only effectful field expression is the `peer_identity`
C string; enums collapse through `map(|i| i as u8).unwrap_or(0)`, the
pool size through `unwrap_or(0)`, and the vector length and capacity
through `as u8` truncation. -/
def RTCConfiguration.intoRaw (c : RTCConfiguration) (h : Heap) :
    Res RawRTCPeerConnectionConfigure :=
  (encodeServersTuple c.ice_servers h).bind fun t h1 =>
    (encodeOptRStr c.peer_identity h1).bind fun pid h2 =>
      .ok ⟨(c.bundle_policy.map BundelPolicy.toU8).getD 0,
           (c.ice_transport_policy.map IceTransportPolicy.toU8).getD 0,
           pid,
           (c.rtcp_mux_policy.map RtcpMuxPolicy.toU8).getD 0,
           t.1, t.2.1 % 256, t.2.2 % 256,
           c.ice_candidate_pool_size.getD 0⟩ h2

/-- `RawRTCPeerConnectionConfigure::into_raw` (source lines 81-83):
`Box::into_raw(Box::new(self))`. -/
def RawRTCPeerConnectionConfigure.into_raw
    (r : RawRTCPeerConnectionConfigure) (h : Heap) : Ptr × Heap :=
  h.alloc (.box r)

/-- `RawRTCPeerConnectionConfigure::from_raw` (source lines 85-87):
`Box::from_raw`, retaking ownership of the box cell; undefined
behaviour (`none`) on a pointer that is not a live box. -/
def RawRTCPeerConnectionConfigure.from_raw (p : Ptr) (h : Heap) :
    Option (RawRTCPeerConnectionConfigure × Heap) :=
  match p with
  | .addr a =>
    match h.lookup a with
    | some (.box r) => (h.free a).map (fun h' => (r, h'))
    | _ => none
  | _ => none

/-- Field tags of the raw ICE server structure. -/
inductive IceFieldTag where
  | credential
  | urls
  | urls_size
  | urls_capacity
  | username
deriving DecidableEq

/-- The `repr(C)` field order declared by `RawRTCIceServer` (source
lines 30-37). -/
def RawRTCIceServer.declaredFieldOrder : List IceFieldTag :=
  [.credential, .urls, .urls_size, .urls_capacity, .username]

/-- Modelled from the spec: the raw ICE server field layout stated in
the data model, section 3 — "credential, username, urls, urls_length,
urls_allocated_capacity", for comparison with the declared order. -/
def specIceServerFieldOrder : List IceFieldTag :=
  [.credential, .username, .urls, .urls_size, .urls_capacity]

/-- All strings reachable from a value-form ICE server are free of
embedded null bytes. -/
def RTCIceServer.NoNul (v : RTCIceServer) : Prop :=
  (∀ s ∈ v.credential, hasNul s = false) ∧
  (∀ s ∈ v.username, hasNul s = false) ∧
  (∀ l ∈ v.urls, ∀ s ∈ l, hasNul s = false)

instance (v : RTCIceServer) : Decidable v.NoNul := by
  unfold RTCIceServer.NoNul; infer_instance

/-- All strings reachable from a value-form configuration are free of
embedded null bytes. -/
def RTCConfiguration.NoNul (c : RTCConfiguration) : Prop :=
  (∀ s ∈ c.peer_identity, hasNul s = false) ∧
  (∀ l ∈ c.ice_servers, ∀ v ∈ l, v.NoNul)

instance (c : RTCConfiguration) : Decidable c.NoNul := by
  unfold RTCConfiguration.NoNul; infer_instance

/-- The pointer encodes the string: it addresses a live C string block
holding the string's bytes followed by the null terminator. -/
def encodesRStr (h : Heap) (p : Ptr) (s : RStr) : Prop :=
  ∃ a, p = Ptr.addr a ∧ h.lookup a = some (.cstring (s ++ [0]))

/-- The pointer encodes an optional string: null for `None`, a live C
string for `Some`. -/
def encodesOptStr (h : Heap) (p : Ptr) (o : Option RStr) : Prop :=
  match o with
  | none => p = Ptr.null
  | some s => encodesRStr h p s

/-- The urls fields of a raw server encode the optional url list as the
code produces it: `None` to `(null, 0, 0)`; an empty list to the
dangling sentinel with counts 0; a non-empty list to a live array of
per-element C strings whose recorded counts are the length truncated
`as u8`. -/
def encodesUrls (h : Heap) (r : RawRTCIceServer) (o : Option (List RStr)) :
    Prop :=
  match o with
  | none => r.urls = Ptr.null ∧ r.urls_size = 0 ∧ r.urls_capacity = 0
  | some l =>
    if l.isEmpty then
      r.urls = Ptr.dangling ∧ r.urls_size = 0 ∧ r.urls_capacity = 0
    else
      ∃ a ps, r.urls = Ptr.addr a ∧ h.lookup a = some (.ptrArray ps) ∧
        ps.length = l.length ∧
        r.urls_size = l.length % 256 ∧ r.urls_capacity = l.length % 256 ∧
        ∀ i (hp : i < ps.length) (hl : i < l.length),
          encodesRStr h (ps.get ⟨i, hp⟩) (l.get ⟨i, hl⟩)

/-- The raw server encodes the value-form server field by field. -/
def encodesServer (h : Heap) (r : RawRTCIceServer) (v : RTCIceServer) :
    Prop :=
  encodesOptStr h r.credential v.credential ∧
  encodesOptStr h r.username v.username ∧
  encodesUrls h r v.urls

/-- The ice_servers fields of a raw configuration encode the optional
server list as the code produces it. -/
def encodesServersField (h : Heap) (r : RawRTCPeerConnectionConfigure)
    (o : Option (List RTCIceServer)) : Prop :=
  match o with
  | none =>
    r.ice_servers = Ptr.null ∧ r.ice_servers_size = 0 ∧
      r.ice_servers_capacity = 0
  | some l =>
    if l.isEmpty then
      r.ice_servers = Ptr.dangling ∧ r.ice_servers_size = 0 ∧
        r.ice_servers_capacity = 0
    else
      ∃ a rs, r.ice_servers = Ptr.addr a ∧
        h.lookup a = some (.serverArray rs) ∧
        rs.length = l.length ∧
        r.ice_servers_size = l.length % 256 ∧
        r.ice_servers_capacity = l.length % 256 ∧
        ∀ i (hp : i < rs.length) (hl : i < l.length),
          encodesServer h (rs.get ⟨i, hp⟩) (l.get ⟨i, hl⟩)

/-- `h₂` extends `h₁`: the bump counter moved forward and the new
blocks, all at fresh addresses, sit in front of the old ones. -/
def Heap.grows (h₂ h₁ : Heap) : Prop :=
  h₁.next ≤ h₂.next ∧
  ∃ new, h₂.blocks = new ++ h₁.blocks ∧
    ∀ p ∈ new, h₁.next ≤ p.1 ∧ p.1 < h₂.next

theorem Heap.grows_refl (h : Heap) : h.grows h :=
  ⟨le_refl _, [], rfl, by simp⟩

theorem Heap.grows_trans {h₃ h₂ h₁ : Heap} (g₂ : h₃.grows h₂)
    (g₁ : h₂.grows h₁) : h₃.grows h₁ := by
  obtain ⟨le₂, new₂, hb₂, hk₂⟩ := g₂
  obtain ⟨le₁, new₁, hb₁, hk₁⟩ := g₁
  refine ⟨le_trans le₁ le₂, new₂ ++ new₁, ?_, ?_⟩
  · rw [hb₂, hb₁, List.append_assoc]
  · intro p hp
    rcases List.mem_append.mp hp with hp₂ | hp₁
    · exact ⟨le_trans le₁ (hk₂ p hp₂).1, (hk₂ p hp₂).2⟩
    · exact ⟨(hk₁ p hp₁).1, lt_of_lt_of_le (hk₁ p hp₁).2 le₂⟩

theorem Heap.alloc_grows (h : Heap) (b : Alloc) : (h.alloc b).2.grows h :=
  ⟨Nat.le_succ _, [(h.next, b)], rfl, by
    intro p hp
    simp only [List.mem_singleton] at hp
    subst hp
    exact ⟨le_refl _, Nat.lt_succ_self _⟩⟩

theorem Heap.wf_of_grows {h₂ h₁ : Heap} (g : h₂.grows h₁) (w : h₁.wf) :
    h₂.wf := by
  obtain ⟨le, new, hb, hk⟩ := g
  intro p hp
  rw [hb] at hp
  rcases List.mem_append.mp hp with hn | ho
  · exact (hk p hn).2
  · exact lt_of_lt_of_le (w p ho) le

theorem mem_of_lookupA {bs : List (Nat × Alloc)} {a : Nat} {v : Alloc}
    (hl : lookupA bs a = some v) : (a, v) ∈ bs := by
  induction bs with
  | nil => simp [lookupA] at hl
  | cons p rest ih =>
    obtain ⟨k, w⟩ := p
    simp only [lookupA] at hl
    by_cases hak : a = k
    · rw [if_pos hak] at hl
      obtain rfl := Option.some_inj.mp hl
      subst hak
      exact List.mem_cons_self _ _
    · rw [if_neg hak] at hl
      exact List.mem_cons_of_mem _ (ih hl)

theorem lookupA_append_right {new old : List (Nat × Alloc)} {a : Nat}
    (hk : ∀ p ∈ new, p.1 ≠ a) :
    lookupA (new ++ old) a = lookupA old a := by
  induction new with
  | nil => rfl
  | cons p rest ih =>
    obtain ⟨k, w⟩ := p
    simp only [List.cons_append, lookupA]
    rw [if_neg (fun hak => hk (k, w) (List.mem_cons_self _ _) hak.symm)]
    exact ih (fun q hq => hk q (List.mem_cons_of_mem _ hq))

/-- A lookup that succeeds in a well-formed heap still succeeds, with
the same block, in any heap that extends it. -/
theorem Heap.lookup_of_grows {h₂ h₁ : Heap} {a : Nat} {v : Alloc}
    (g : h₂.grows h₁) (w : h₁.wf) (hl : h₁.lookup a = some v) :
    h₂.lookup a = some v := by
  obtain ⟨le, new, hb, hk⟩ := g
  have ha : a < h₁.next := w _ (mem_of_lookupA hl)
  unfold Heap.lookup at hl ⊢
  rw [hb, lookupA_append_right, hl]
  intro p hp
  exact Nat.ne_of_gt (lt_of_lt_of_le ha (hk p hp).1)

theorem encodesRStr_mono {h₂ h₁ : Heap} {p : Ptr} {s : RStr}
    (g : h₂.grows h₁) (w : h₁.wf) (he : encodesRStr h₁ p s) :
    encodesRStr h₂ p s := by
  obtain ⟨a, hp, hl⟩ := he
  exact ⟨a, hp, Heap.lookup_of_grows g w hl⟩

theorem encodesOptStr_mono {h₂ h₁ : Heap} {p : Ptr} {o : Option RStr}
    (g : h₂.grows h₁) (w : h₁.wf) (he : encodesOptStr h₁ p o) :
    encodesOptStr h₂ p o := by
  cases o with
  | none => exact he
  | some s => exact encodesRStr_mono g w he

theorem encodesUrls_mono {h₂ h₁ : Heap} {r : RawRTCIceServer}
    {o : Option (List RStr)} (g : h₂.grows h₁) (w : h₁.wf)
    (he : encodesUrls h₁ r o) : encodesUrls h₂ r o := by
  cases o with
  | none => exact he
  | some l =>
    simp only [encodesUrls] at he ⊢
    by_cases hl : l.isEmpty
    · rw [if_pos hl] at he ⊢; exact he
    · rw [if_neg hl] at he ⊢
      obtain ⟨a, ps, h₁eq, hlook, hlen, hsz, hcap, helem⟩ := he
      refine ⟨a, ps, h₁eq, Heap.lookup_of_grows g w hlook, hlen, hsz, hcap,
        fun i hp hlt => encodesRStr_mono g w (helem i hp hlt)⟩

theorem encodesServer_mono {h₂ h₁ : Heap} {r : RawRTCIceServer}
    {v : RTCIceServer} (g : h₂.grows h₁) (w : h₁.wf)
    (he : encodesServer h₁ r v) : encodesServer h₂ r v :=
  ⟨encodesOptStr_mono g w he.1, encodesOptStr_mono g w he.2.1,
    encodesUrls_mono g w he.2.2⟩

theorem cstringIntoRaw_ok {s : RStr} (h : Heap) (hs : hasNul s = false) :
    cstringIntoRaw s h =
      some (Ptr.addr h.next,
        ⟨h.next + 1, (h.next, .cstring (s ++ [0])) :: h.blocks⟩) := by
  simp [cstringIntoRaw, cstringNew, hs, Heap.alloc]

theorem encodeOptRStr_ok {o : Option RStr} (h : Heap)
    (hn : ∀ s ∈ o, hasNul s = false) :
    ∃ p h', encodeOptRStr o h = .ok p h' ∧ h'.grows h ∧
      encodesOptStr h' p o := by
  cases o with
  | none => exact ⟨Ptr.null, h, rfl, Heap.grows_refl h, rfl⟩
  | some s =>
    have hs : hasNul s = false := hn s (by simp)
    refine ⟨Ptr.addr h.next,
      ⟨h.next + 1, (h.next, .cstring (s ++ [0])) :: h.blocks⟩, ?_, ?_, ?_⟩
    · simp [encodeOptRStr, cstringIntoRaw_ok h hs]
    · exact Heap.alloc_grows h (.cstring (s ++ [0]))
    · exact ⟨h.next, rfl, by simp [Heap.lookup, lookupA]⟩

theorem encodeStringList_ok : ∀ (l : List RStr) (h : Heap), h.wf →
    (∀ s ∈ l, hasNul s = false) →
    ∃ ps h', encodeStringList l h = .ok ps h' ∧ h'.grows h ∧
      ps.length = l.length ∧
      ∀ i (hp : i < ps.length) (hl : i < l.length),
        encodesRStr h' (ps.get ⟨i, hp⟩) (l.get ⟨i, hl⟩) := by
  intro l
  induction l with
  | nil =>
    intro h _ _
    exact ⟨[], h, rfl, Heap.grows_refl h, rfl, by intro i hp; simp at hp⟩
  | cons s rest ih =>
    intro h w hn
    have hs : hasNul s = false := hn s (by simp)
    set h1 : Heap :=
      ⟨h.next + 1, (h.next, .cstring (s ++ [0])) :: h.blocks⟩ with hh1
    have g1 : h1.grows h := Heap.alloc_grows h (.cstring (s ++ [0]))
    have w1 : h1.wf := Heap.wf_of_grows g1 w
    obtain ⟨ps, h2, heq, g2, hlen, helem⟩ :=
      ih h1 w1 (fun t ht => hn t (List.mem_cons_of_mem _ ht))
    refine ⟨Ptr.addr h.next :: ps, h2, ?_, Heap.grows_trans g2 g1,
      by simp [hlen], ?_⟩
    · simp only [encodeStringList, cstringIntoRaw_ok h hs, heq]
    · intro i hp hl
      match i with
      | 0 =>
        simp only [List.get]
        exact encodesRStr_mono g2 w1
          ⟨h.next, rfl, by simp [hh1, Heap.lookup, lookupA]⟩
      | Nat.succ j =>
        simp only [List.get]
        exact helem j (Nat.lt_of_succ_lt_succ (by simpa using hp))
          (Nat.lt_of_succ_lt_succ (by simpa using hl))

theorem encodeUrlsTuple_ok (o : Option (List RStr)) (h : Heap) (w : h.wf)
    (hn : ∀ l ∈ o, ∀ s ∈ l, hasNul s = false) :
    ∃ t h', encodeUrlsTuple o h = .ok t h' ∧ h'.grows h ∧ h'.wf ∧
      ∀ cred user : Ptr,
        encodesUrls h' ⟨cred, t.1, t.2.1 % 256, t.2.2 % 256, user⟩ o := by
  cases o with
  | none =>
    exact ⟨(Ptr.null, 0, 0), h, rfl, Heap.grows_refl h, w,
      fun cred user => ⟨rfl, rfl, rfl⟩⟩
  | some l =>
    obtain ⟨ps, h1, heq, g1, hlen, helem⟩ :=
      encodeStringList_ok l h w (hn l (by simp))
    have w1 : h1.wf := Heap.wf_of_grows g1 w
    cases l with
    | nil =>
      have hps : ps = [] := List.length_eq_zero.mp hlen
      subst hps
      refine ⟨(Ptr.dangling, 0, 0), h1, ?_, g1, w1, fun cred user => ?_⟩
      · simp [encodeUrlsTuple, heq, Res.bind]
      · simp [encodesUrls]
    | cons x xs =>
      match ps, hlen with
      | p0 :: ps', hlen =>
        set h2 : Heap := (h1.alloc (.ptrArray (p0 :: ps'))).2 with hh2
        have g2 : h2.grows h1 := Heap.alloc_grows h1 (.ptrArray (p0 :: ps'))
        have w2 : h2.wf := Heap.wf_of_grows g2 w1
        refine ⟨(Ptr.addr h1.next, (p0 :: ps').length, (p0 :: ps').length),
          h2, ?_, Heap.grows_trans g2 g1, w2, fun cred user => ?_⟩
        · simp [encodeUrlsTuple, heq, Res.bind, Heap.alloc, hh2]
        · simp only [encodesUrls, List.isEmpty_cons, if_neg Bool.false_ne_true]
          refine ⟨h1.next, p0 :: ps', rfl, ?_, hlen, by rw [hlen], by rw [hlen],
            fun i hp hl => encodesRStr_mono g2 w1 (helem i hp hl)⟩
          simp [hh2, Heap.alloc, Heap.lookup, lookupA]

theorem iceServerIntoRaw_ok (v : RTCIceServer) (h : Heap) (w : h.wf)
    (hn : v.NoNul) :
    ∃ r h', v.intoRaw h = .ok r h' ∧ h'.grows h ∧ h'.wf ∧
      encodesServer h' r v := by
  obtain ⟨hnc, hnu, hnl⟩ := hn
  obtain ⟨t, h1, hteq, g1, w1, hurls⟩ := encodeUrlsTuple_ok v.urls h w hnl
  obtain ⟨cred, h2, hceq, g2, hc⟩ := encodeOptRStr_ok h1 hnc
  have w2 : h2.wf := Heap.wf_of_grows g2 w1
  obtain ⟨user, h3, hueq, g3, hu⟩ := encodeOptRStr_ok h2 hnu
  have w3 : h3.wf := Heap.wf_of_grows g3 w2
  refine ⟨⟨cred, t.1, t.2.1 % 256, t.2.2 % 256, user⟩, h3, ?_,
    Heap.grows_trans g3 (Heap.grows_trans g2 g1), w3, ?_, ?_, ?_⟩
  · simp only [RTCIceServer.intoRaw, hteq, Res.bind, hceq, hueq]
  · exact encodesOptStr_mono g3 w2 hc
  · exact hu
  · exact encodesUrls_mono (Heap.grows_trans g3 g2) w1 (hurls cred user)

theorem encodeServerList_ok : ∀ (l : List RTCIceServer) (h : Heap), h.wf →
    (∀ v ∈ l, v.NoNul) →
    ∃ rs h', encodeServerList l h = .ok rs h' ∧ h'.grows h ∧ h'.wf ∧
      rs.length = l.length ∧
      ∀ i (hp : i < rs.length) (hl : i < l.length),
        encodesServer h' (rs.get ⟨i, hp⟩) (l.get ⟨i, hl⟩) := by
  intro l
  induction l with
  | nil =>
    intro h w _
    exact ⟨[], h, rfl, Heap.grows_refl h, w, rfl, by intro i hp; simp at hp⟩
  | cons v rest ih =>
    intro h w hn
    obtain ⟨r, h1, hreq, g1, w1, hr⟩ :=
      iceServerIntoRaw_ok v h w (hn v (by simp))
    obtain ⟨rs, h2, heq, g2, w2, hlen, helem⟩ :=
      ih h1 w1 (fun t ht => hn t (List.mem_cons_of_mem _ ht))
    refine ⟨r :: rs, h2, ?_, Heap.grows_trans g2 g1, w2, by simp [hlen], ?_⟩
    · simp only [encodeServerList, hreq, heq]
    · intro i hp hl
      match i with
      | 0 =>
        simp only [List.get]
        exact encodesServer_mono g2 w1 hr
      | Nat.succ j =>
        simp only [List.get]
        exact helem j (Nat.lt_of_succ_lt_succ (by simpa using hp))
          (Nat.lt_of_succ_lt_succ (by simpa using hl))

theorem encodeServersTuple_ok (o : Option (List RTCIceServer)) (h : Heap)
    (w : h.wf) (hn : ∀ l ∈ o, ∀ v ∈ l, v.NoNul) :
    ∃ t h', encodeServersTuple o h = .ok t h' ∧ h'.grows h ∧ h'.wf ∧
      ∀ bp itp rmp pool : Nat, ∀ pidp : Ptr,
        encodesServersField h'
          ⟨bp, itp, pidp, rmp, t.1, t.2.1 % 256, t.2.2 % 256, pool⟩ o := by
  cases o with
  | none =>
    exact ⟨(Ptr.null, 0, 0), h, rfl, Heap.grows_refl h, w,
      fun bp itp rmp pool pidp => ⟨rfl, rfl, rfl⟩⟩
  | some l =>
    obtain ⟨rs, h1, heq, g1, w1, hlen, helem⟩ := encodeServerList_ok l h w
      (hn l (by simp))
    cases l with
    | nil =>
      have hrs : rs = [] := List.length_eq_zero.mp hlen
      subst hrs
      refine ⟨(Ptr.dangling, 0, 0), h1, ?_, g1, w1,
        fun bp itp rmp pool pidp => ?_⟩
      · simp [encodeServersTuple, heq, Res.bind]
      · simp [encodesServersField]
    | cons x xs =>
      match rs, hlen with
      | r0 :: rs', hlen =>
        set h2 : Heap := (h1.alloc (.serverArray (r0 :: rs'))).2 with hh2
        have g2 : h2.grows h1 :=
          Heap.alloc_grows h1 (.serverArray (r0 :: rs'))
        have w2 : h2.wf := Heap.wf_of_grows g2 w1
        refine ⟨(Ptr.addr h1.next, (r0 :: rs').length, (r0 :: rs').length),
          h2, ?_, Heap.grows_trans g2 g1, w2,
          fun bp itp rmp pool pidp => ?_⟩
        · simp [encodeServersTuple, heq, Res.bind, Heap.alloc, hh2]
        · simp only [encodesServersField, List.isEmpty_cons,
            if_neg Bool.false_ne_true]
          refine ⟨h1.next, r0 :: rs', rfl, ?_, hlen, by rw [hlen],
            by rw [hlen],
            fun i hp hl => encodesServer_mono g2 w1 (helem i hp hl)⟩
          simp [hh2, Heap.alloc, Heap.lookup, lookupA]

theorem encodesServersField_mono {h₂ h₁ : Heap}
    {r : RawRTCPeerConnectionConfigure} {o : Option (List RTCIceServer)}
    (g : h₂.grows h₁) (w : h₁.wf) (he : encodesServersField h₁ r o) :
    encodesServersField h₂ r o := by
  cases o with
  | none => exact he
  | some l =>
    simp only [encodesServersField] at he ⊢
    by_cases hl : l.isEmpty
    · rw [if_pos hl] at he ⊢; exact he
    · rw [if_neg hl] at he ⊢
      obtain ⟨a, rs, h₁eq, hlook, hlen, hsz, hcap, helem⟩ := he
      exact ⟨a, rs, h₁eq, Heap.lookup_of_grows g w hlook, hlen, hsz, hcap,
        fun i hp hlt => encodesServer_mono g w (helem i hp hlt)⟩

theorem configIntoRaw_ok (c : RTCConfiguration) (h : Heap) (w : h.wf)
    (hn : c.NoNul) :
    ∃ r h', c.intoRaw h = .ok r h' ∧ h'.grows h ∧ h'.wf ∧
      encodesServersField h' r c.ice_servers ∧
      encodesOptStr h' r.peer_identity c.peer_identity ∧
      r.bundle_policy = (c.bundle_policy.map BundelPolicy.toU8).getD 0 ∧
      r.ice_transport_policy =
        (c.ice_transport_policy.map IceTransportPolicy.toU8).getD 0 ∧
      r.rtcp_mux_policy = (c.rtcp_mux_policy.map RtcpMuxPolicy.toU8).getD 0 ∧
      r.ice_candidate_pool_size = c.ice_candidate_pool_size.getD 0 := by
  obtain ⟨hnp, hns⟩ := hn
  obtain ⟨t, h1, hteq, g1, w1, hsf⟩ := encodeServersTuple_ok c.ice_servers h w hns
  obtain ⟨pid, h2, hpeq, g2, hp⟩ := encodeOptRStr_ok h1 hnp
  have w2 : h2.wf := Heap.wf_of_grows g2 w1
  refine ⟨⟨(c.bundle_policy.map BundelPolicy.toU8).getD 0,
    (c.ice_transport_policy.map IceTransportPolicy.toU8).getD 0,
    pid,
    (c.rtcp_mux_policy.map RtcpMuxPolicy.toU8).getD 0,
    t.1, t.2.1 % 256, t.2.2 % 256,
    c.ice_candidate_pool_size.getD 0⟩, h2, ?_,
    Heap.grows_trans g2 g1, w2, ?_, hp, rfl, rfl, rfl, rfl⟩
  · simp only [RTCConfiguration.intoRaw, hteq, Res.bind, hpeq]
  · exact encodesServersField_mono g2 w1 (hsf _ _ _ _ pid)

/-- Whatever the heap outcome, a successful configuration conversion
fixes the scalar raw fields as the `map(.. as u8).unwrap_or(0)` and
`unwrap_or(0)` expressions dictate. -/
theorem configIntoRaw_pure (c : RTCConfiguration) (h : Heap)
    (r : RawRTCPeerConnectionConfigure) (h' : Heap)
    (heq : c.intoRaw h = .ok r h') :
    r.bundle_policy = (c.bundle_policy.map BundelPolicy.toU8).getD 0 ∧
    r.ice_transport_policy =
      (c.ice_transport_policy.map IceTransportPolicy.toU8).getD 0 ∧
    r.rtcp_mux_policy = (c.rtcp_mux_policy.map RtcpMuxPolicy.toU8).getD 0 ∧
    r.ice_candidate_pool_size = c.ice_candidate_pool_size.getD 0 := by
  unfold RTCConfiguration.intoRaw at heq
  cases hst : encodeServersTuple c.ice_servers h with
  | ok t h1 =>
    rw [hst] at heq
    simp only [Res.bind] at heq
    cases hpe : encodeOptRStr c.peer_identity h1 with
    | ok pid h2 =>
      rw [hpe] at heq
      cases heq
      exact ⟨rfl, rfl, rfl, rfl⟩
    | err e h2 => rw [hpe] at heq; cases heq
    | panic h2 => rw [hpe] at heq; cases heq
    | ub => rw [hpe] at heq; cases heq
  | err e h1 => rw [hst] at heq; simp only [Res.bind] at heq; cases heq
  | panic h1 => rw [hst] at heq; simp only [Res.bind] at heq; cases heq
  | ub => rw [hst] at heq; simp only [Res.bind] at heq; cases heq

/-- Claim C1 (code bug): the claim demands that releasing the raw form
encoded from any well-formed value configuration deallocates every
allocation exactly once.  At the failing input `RTCConfiguration::default()`
(every optional field `None`) the encode performs no allocation, so a
correct release would be a no-op; instead the `Drop` impl calls
`CString::from_raw` on the null `peer_identity` pointer, which is
undefined behaviour, not a clean release. -/
theorem release_of_encoded_default_configuration_is_undefined :
    RTCConfiguration.intoRaw RTCConfiguration.default emptyHeap =
      .ok ⟨0, 0, Ptr.null, 0, Ptr.null, 0, 0, 0⟩ emptyHeap ∧
    rawConfigureDrop ⟨0, 0, Ptr.null, 0, Ptr.null, 0, 0, 0⟩ emptyHeap =
      none := by
  decide

/-- Claim C2 (code bug): the claim says the release path never
reconstructs from a null pointer and that releasing the encoding of an
all-`None` value is a no-op.  The `Drop` impl for `RawRTCIceServer`
calls `CString::from_raw(self.credential)` unconditionally, so releasing
the encoding of `RTCIceServer::default()` hits `CString::from_raw(null)`
— undefined behaviour rather than a no-op. -/
theorem drop_of_encoded_default_ice_server_is_undefined :
    RTCIceServer.intoRaw RTCIceServer.default emptyHeap =
      .ok ⟨Ptr.null, Ptr.null, 0, 0, Ptr.null⟩ emptyHeap ∧
    rawIceServerDrop ⟨Ptr.null, Ptr.null, 0, 0, Ptr.null⟩ emptyHeap =
      none := by
  decide

/-- Claim C5 (confirmed): each enum's `as u8` byte equals its one-based
ordinal in declaration order and is nonzero, and the configuration
conversion stores `map(|i| i as u8).unwrap_or(0)` for each of the three
policy fields: `Some(variant)` becomes the ordinal byte, `None` becomes
0. -/
theorem enum_encode_matches_declared_ordinal :
    (∀ v : BundelPolicy,
      v.toU8 = ordIn BundelPolicy.declaredVariants v ∧ v.toU8 ≠ 0) ∧
    (∀ v : IceTransportPolicy,
      v.toU8 = ordIn IceTransportPolicy.declaredVariants v ∧ v.toU8 ≠ 0) ∧
    (∀ v : RtcpMuxPolicy,
      v.toU8 = ordIn RtcpMuxPolicy.declaredVariants v ∧ v.toU8 ≠ 0) ∧
    (∀ (c : RTCConfiguration) (h : Heap) (r : RawRTCPeerConnectionConfigure)
        (h' : Heap), c.intoRaw h = .ok r h' →
      r.bundle_policy = (c.bundle_policy.map BundelPolicy.toU8).getD 0 ∧
      r.ice_transport_policy =
        (c.ice_transport_policy.map IceTransportPolicy.toU8).getD 0 ∧
      r.rtcp_mux_policy =
        (c.rtcp_mux_policy.map RtcpMuxPolicy.toU8).getD 0) := by
  refine ⟨?_, ?_, ?_, ?_⟩
  · intro v; cases v <;> exact ⟨rfl, by decide⟩
  · intro v; cases v <;> exact ⟨rfl, by decide⟩
  · intro v; cases v <;> exact ⟨rfl, by decide⟩
  intro c h r h' heq
  have hp := configIntoRaw_pure c h r h' heq
  exact ⟨hp.1, hp.2.1, hp.2.2.1⟩

/-- Witness for C5: the configuration carrying `Some(MaxBundle)` and
nothing else encodes with bundle policy byte 3. -/
theorem enum_encode_matches_declared_ordinal_witness :
    (RawRTCPeerConnectionConfigure.mk 3 0 Ptr.null 0 Ptr.null 0 0 0).bundle_policy
      = ((some BundelPolicy.MaxBundle).map BundelPolicy.toU8).getD 0 ∧
    (RawRTCPeerConnectionConfigure.mk 3 0 Ptr.null 0 Ptr.null 0 0 0).ice_transport_policy
      = ((none : Option IceTransportPolicy).map IceTransportPolicy.toU8).getD 0 ∧
    (RawRTCPeerConnectionConfigure.mk 3 0 Ptr.null 0 Ptr.null 0 0 0).rtcp_mux_policy
      = ((none : Option RtcpMuxPolicy).map RtcpMuxPolicy.toU8).getD 0 :=
  enum_encode_matches_declared_ordinal.2.2.2
    (RTCConfiguration.mk (some .MaxBundle) none none none none none)
    emptyHeap (RawRTCPeerConnectionConfigure.mk 3 0 Ptr.null 0 Ptr.null 0 0 0)
    emptyHeap (by decide)

/-- Claim C8 (confirmed): the configuration conversion copies
`ice_candidate_pool_size` through `unwrap_or(0)`: `Some(n)` becomes the
byte `n`, `None` becomes 0, and the raw forms produced from
`Some(0)` and from `None` carry equal pool-size bytes. -/
theorem pool_size_direct_copy :
    (∀ (c : RTCConfiguration) (h : Heap) (r : RawRTCPeerConnectionConfigure)
        (h' : Heap), c.intoRaw h = .ok r h' →
      r.ice_candidate_pool_size = c.ice_candidate_pool_size.getD 0) ∧
    (∀ (c : RTCConfiguration) (h₁ h₂ : Heap)
        (r₁ r₂ : RawRTCPeerConnectionConfigure) (h₁' h₂' : Heap),
      ({c with ice_candidate_pool_size := some 0}).intoRaw h₁ = .ok r₁ h₁' →
      ({c with ice_candidate_pool_size := none}).intoRaw h₂ = .ok r₂ h₂' →
      r₁.ice_candidate_pool_size = r₂.ice_candidate_pool_size) := by
  have base : ∀ (c : RTCConfiguration) (h : Heap)
      (r : RawRTCPeerConnectionConfigure) (h' : Heap),
      c.intoRaw h = .ok r h' →
      r.ice_candidate_pool_size = c.ice_candidate_pool_size.getD 0 :=
    fun c h r h' heq => (configIntoRaw_pure c h r h' heq).2.2.2
  refine ⟨base, ?_⟩
  intro c h₁ h₂ r₁ r₂ h₁' h₂' heq₁ heq₂
  rw [base _ _ _ _ heq₁, base _ _ _ _ heq₂]
  rfl

/-- Witness for C8: a configuration with pool size `Some(7)` encodes
with pool byte 7, and `Some(0)` and `None` agree on the default
configuration. -/
theorem pool_size_direct_copy_witness :
    (RawRTCPeerConnectionConfigure.mk 0 0 Ptr.null 0 Ptr.null 0 0 7).ice_candidate_pool_size
      = (RTCConfiguration.mk none none none none none (some 7)).ice_candidate_pool_size.getD 0 ∧
    (RawRTCPeerConnectionConfigure.mk 0 0 Ptr.null 0 Ptr.null 0 0 0).ice_candidate_pool_size
      = (RawRTCPeerConnectionConfigure.mk 0 0 Ptr.null 0 Ptr.null 0 0 0).ice_candidate_pool_size :=
  ⟨pool_size_direct_copy.1
      (RTCConfiguration.mk none none none none none (some 7)) emptyHeap
      (RawRTCPeerConnectionConfigure.mk 0 0 Ptr.null 0 Ptr.null 0 0 7)
      emptyHeap (by decide),
    pool_size_direct_copy.2 RTCConfiguration.default emptyHeap emptyHeap
      (RawRTCPeerConnectionConfigure.mk 0 0 Ptr.null 0 Ptr.null 0 0 0)
      (RawRTCPeerConnectionConfigure.mk 0 0 Ptr.null 0 Ptr.null 0 0 0)
      emptyHeap emptyHeap (by decide) (by decide)⟩

/-- Counterexample for C9: the declared `repr(C)` field order of
`RawRTCIceServer` is not the order the data model states — at index 1
the struct declares `urls` where the data model states `username`. -/
theorem raw_ice_server_field_order_differs_from_spec :
    RawRTCIceServer.declaredFieldOrder ≠ specIceServerFieldOrder ∧
    RawRTCIceServer.declaredFieldOrder.get? 1 = some IceFieldTag.urls ∧
    specIceServerFieldOrder.get? 1 = some IceFieldTag.username := by
  decide

/-- Claim C9 (corrected): the raw `RawRTCIceServer` carries exactly the
five fields the data model lists, but in the declared order
`credential, urls, urls_size, urls_capacity, username` — the data
model's order with `username` moved from the second position to the
last. -/
theorem raw_ice_server_field_order_username_last :
    RawRTCIceServer.declaredFieldOrder =
      (specIceServerFieldOrder.erase IceFieldTag.username) ++
        [IceFieldTag.username] ∧
    RawRTCIceServer.declaredFieldOrder.Perm specIceServerFieldOrder := by
  decide

/-- Claim C10 (confirmed): `into_raw` boxes the raw configuration and
returns a non-null pointer, and `from_raw` on that pointer returns the
very structure, every field equal, giving back the heap minus the box
cell. -/
theorem handle_round_trip_identity (r : RawRTCPeerConnectionConfigure)
    (h : Heap) :
    (r.into_raw h).1 ≠ Ptr.null ∧
    RawRTCPeerConnectionConfigure.from_raw (r.into_raw h).1 (r.into_raw h).2
      = some (r, ⟨h.next + 1, h.blocks⟩) := by
  constructor
  · simp [RawRTCPeerConnectionConfigure.into_raw, Heap.alloc]
  · simp [RawRTCPeerConnectionConfigure.into_raw,
      RawRTCPeerConnectionConfigure.from_raw, Heap.alloc, Heap.lookup,
      lookupA, Heap.free, removeA]

/-- Counterexample for C3: encoding an ICE server whose username is
"bad\0name" (an embedded null byte) does not return any surfaced error
value — the conversion panics (the `unwrap` on the failed
`CString::new`). -/
theorem string_nul_encode_returns_no_error :
    (RTCIceServer.intoRaw
      ⟨none, some [98, 97, 100, 0, 110, 97, 109, 101], none⟩
      emptyHeap).isErr = false ∧
    (RTCIceServer.intoRaw
      ⟨none, some [98, 97, 100, 0, 110, 97, 109, 101], none⟩
      emptyHeap).isPanic = true := by
  decide

/-- Claim C3 (corrected): for every string with an embedded null byte,
encoding it as credential, username, a url element, or the peer
identity panics — the `CString::new(..).unwrap()` aborts the conversion
instead of returning a recoverable `InvalidUtf8Content` error. -/
theorem string_nul_encode_panics (s : RStr) (h : Heap)
    (hs : hasNul s = true) :
    RTCIceServer.intoRaw ⟨some s, none, none⟩ h = .panic h ∧
    RTCIceServer.intoRaw ⟨none, some s, none⟩ h = .panic h ∧
    RTCIceServer.intoRaw ⟨none, none, some [s]⟩ h = .panic h ∧
    RTCConfiguration.intoRaw ⟨none, none, some s, none, none, none⟩ h =
      .panic h := by
  refine ⟨?_, ?_, ?_, ?_⟩ <;>
    simp [RTCIceServer.intoRaw, RTCConfiguration.intoRaw, encodeUrlsTuple,
      encodeOptRStr, cstringIntoRaw, cstringNew, hs, Res.bind,
      encodeStringList, encodeServersTuple]

/-- Witness for C3 at the one-byte string `[0]`. -/
theorem string_nul_encode_panics_witness :
    RTCIceServer.intoRaw ⟨some [0], none, none⟩ emptyHeap =
      .panic emptyHeap ∧
    RTCIceServer.intoRaw ⟨none, some [0], none⟩ emptyHeap =
      .panic emptyHeap ∧
    RTCIceServer.intoRaw ⟨none, none, some [[0]]⟩ emptyHeap =
      .panic emptyHeap ∧
    RTCConfiguration.intoRaw ⟨none, none, some [0], none, none, none⟩
      emptyHeap = .panic emptyHeap :=
  string_nul_encode_panics [0] emptyHeap (by decide)

set_option maxRecDepth 8000 in
/-- Counterexample for C4: a 256-element url list and a 256-element ice
server list both encode without any `CapacityOverflow` error, and both
recorded size bytes are 0 — each length was silently truncated into its
byte-sized field. -/
theorem oversized_list_encode_not_rejected :
    (RTCIceServer.intoRaw ⟨none, none, some (List.replicate 256 [97])⟩
      emptyHeap).isErr = false ∧
    ((RTCIceServer.intoRaw ⟨none, none, some (List.replicate 256 [97])⟩
      emptyHeap).okVal?.map RawRTCIceServer.urls_size) = some 0 ∧
    (RTCConfiguration.intoRaw ⟨none, none, none, none,
      some (List.replicate 256 ⟨none, none, none⟩), none⟩
      emptyHeap).isErr = false ∧
    ((RTCConfiguration.intoRaw ⟨none, none, none, none,
      some (List.replicate 256 ⟨none, none, none⟩), none⟩
      emptyHeap).okVal?.map
        RawRTCPeerConnectionConfigure.ice_servers_size) = some 0 := by
  decide

/-- Claim C4 (corrected): no encode-time length check exists for either
list — an ICE server's url list and a configuration's ice server list
of any length encode successfully (given null-free strings), and in
both raw forms the byte-sized size and capacity fields record the
length reduced modulo 256, silently misrepresenting lists longer than
255 elements. -/
theorem list_length_truncated_mod_256 :
    (∀ (l : List RStr) (h : Heap), h.wf → (∀ s ∈ l, hasNul s = false) →
      ∃ r h', RTCIceServer.intoRaw ⟨none, none, some l⟩ h = .ok r h' ∧
        r.urls_size = l.length % 256 ∧
        r.urls_capacity = l.length % 256) ∧
    (∀ (sl : List RTCIceServer) (h : Heap), h.wf → (∀ v ∈ sl, v.NoNul) →
      ∃ r h', RTCConfiguration.intoRaw
          ⟨none, none, none, none, some sl, none⟩ h = .ok r h' ∧
        r.ice_servers_size = sl.length % 256 ∧
        r.ice_servers_capacity = sl.length % 256) := by
  constructor
  · intro l h w hn
    have hnn : RTCIceServer.NoNul ⟨none, none, some l⟩ := by
      refine ⟨by simp, by simp, ?_⟩
      intro l' hl'
      simp only [Option.mem_def, Option.some_inj] at hl'
      subst hl'
      exact hn
    obtain ⟨r, h', heq, _, _, hes⟩ :=
      iceServerIntoRaw_ok ⟨none, none, some l⟩ h w hnn
    have hurls := hes.2.2
    simp only [encodesUrls] at hurls
    cases l with
    | nil =>
      simp only [List.isEmpty_nil, if_true, eq_self_iff_true] at hurls
      exact ⟨r, h', heq, by simp [hurls.2.1], by simp [hurls.2.2]⟩
    | cons x xs =>
      rw [if_neg (show ¬((x :: xs).isEmpty = true) by simp)] at hurls
      obtain ⟨a, ps, _, _, _, hsz, hcap, _⟩ := hurls
      exact ⟨r, h', heq, hsz, hcap⟩
  · intro sl h w hn
    have hnn : RTCConfiguration.NoNul
        ⟨none, none, none, none, some sl, none⟩ := by
      refine ⟨by simp, ?_⟩
      intro l' hl'
      simp only [Option.mem_def, Option.some_inj] at hl'
      subst hl'
      exact hn
    obtain ⟨r, h', heq, _, _, hsf, _⟩ :=
      configIntoRaw_ok ⟨none, none, none, none, some sl, none⟩ h w hnn
    simp only [encodesServersField] at hsf
    cases sl with
    | nil =>
      simp only [List.isEmpty_nil, if_true, eq_self_iff_true] at hsf
      exact ⟨r, h', heq, by simp [hsf.2.1], by simp [hsf.2.2]⟩
    | cons x xs =>
      rw [if_neg (show ¬((x :: xs).isEmpty = true) by simp)] at hsf
      obtain ⟨a, rs, _, _, _, hsz, hcap, _⟩ := hsf
      exact ⟨r, h', heq, hsz, hcap⟩

/-- Witness for C4 at a two-element url list and a one-server list. -/
theorem list_length_truncated_mod_256_witness :
    (∃ r h', RTCIceServer.intoRaw ⟨none, none, some [[97], [98]]⟩
        emptyHeap = .ok r h' ∧
      r.urls_size = ([[97], [98]] : List RStr).length % 256 ∧
      r.urls_capacity = ([[97], [98]] : List RStr).length % 256) ∧
    (∃ r h', RTCConfiguration.intoRaw
        ⟨none, none, none, none, some [⟨none, none, none⟩], none⟩
        emptyHeap = .ok r h' ∧
      r.ice_servers_size =
        ([⟨none, none, none⟩] : List RTCIceServer).length % 256 ∧
      r.ice_servers_capacity =
        ([⟨none, none, none⟩] : List RTCIceServer).length % 256) :=
  ⟨list_length_truncated_mod_256.1 [[97], [98]] emptyHeap (by decide)
      (by decide),
    list_length_truncated_mod_256.2 [⟨none, none, none⟩] emptyHeap
      (by decide) (by decide)⟩

/-- Counterexample for C6: encoding `Some(vec![])` as the url list
yields the dangling sentinel pointer of `Vec::into_raw_parts`, which is
not the null pointer the claim requires. -/
theorem empty_list_encode_yields_dangling_not_null :
    RTCIceServer.intoRaw ⟨none, none, some []⟩ emptyHeap =
      .ok ⟨Ptr.null, Ptr.dangling, 0, 0, Ptr.null⟩ emptyHeap ∧
    Ptr.dangling ≠ Ptr.null := by
  decide

/-- Claim C6 (corrected): for null-free inputs, the ICE server and
configuration conversions succeed and their list fields encode as the
code builds them — `None` to `(null, 0, 0)`, `Some(empty)` to the
non-null dangling sentinel with counts 0 and no allocation, and
`Some(non-empty list)` to a live contiguous array whose element count
equals the input length, whose recorded size and capacity bytes are the
length truncated `as u8` (equal to the length when it is at most 255),
and whose i-th element is the encoding of the i-th input element. -/
theorem list_encode_shape_amended :
    (∀ (v : RTCIceServer) (h : Heap), h.wf → v.NoNul →
      ∃ r h', v.intoRaw h = .ok r h' ∧ encodesServer h' r v) ∧
    (∀ (c : RTCConfiguration) (h : Heap), h.wf → c.NoNul →
      ∃ r h', c.intoRaw h = .ok r h' ∧
        encodesServersField h' r c.ice_servers) ∧
    Ptr.dangling ≠ Ptr.null := by
  refine ⟨?_, ?_, by decide⟩
  · intro v h w hn
    obtain ⟨r, h', heq, _, _, hes⟩ := iceServerIntoRaw_ok v h w hn
    exact ⟨r, h', heq, hes⟩
  · intro c h w hn
    obtain ⟨r, h', heq, _, _, hsf, _⟩ := configIntoRaw_ok c h w hn
    exact ⟨r, h', heq, hsf⟩

/-- Witness for C6 at a one-server, one-url configuration. -/
theorem list_encode_shape_amended_witness :
    ∃ r h', RTCConfiguration.intoRaw
        ⟨none, none, none, none, some [⟨none, none, some [[97]]⟩], none⟩
        emptyHeap = .ok r h' ∧
      encodesServersField h' r (some [⟨none, none, some [[97]]⟩]) :=
  list_encode_shape_amended.2.1
    ⟨none, none, none, none, some [⟨none, none, some [[97]]⟩], none⟩
    emptyHeap (by decide) (by decide)

/-- Counterexample for C7: converting an ICE server with
`credential = Some("ok")` and `username = Some("bad\0name")` panics —
no error value is returned — and the heap at the panic still holds the
credential's C string allocation: the earlier field was not released
before the failure propagated. -/
theorem partial_failure_leaks_credential_eval :
    RTCIceServer.intoRaw
      ⟨some [111, 107], some [98, 97, 100, 0, 110, 97, 109, 101], none⟩
      emptyHeap =
      .panic ⟨1, [(0, .cstring [111, 107, 0])]⟩ := by
  decide

/-- Claim C7 (corrected): when the credential is null-free and the
username holds an embedded null byte, the conversion panics instead of
returning an error, and the credential allocation made just before the
failure is leaked — it is still a live block in the heap the panic
leaves behind. -/
theorem partial_failure_panics_and_leaks (c u : RStr) (h : Heap)
    (hc : hasNul c = false) (hu : hasNul u = true) :
    RTCIceServer.intoRaw ⟨some c, some u, none⟩ h =
      .panic ⟨h.next + 1, (h.next, .cstring (c ++ [0])) :: h.blocks⟩ ∧
    Heap.lookup ⟨h.next + 1, (h.next, .cstring (c ++ [0])) :: h.blocks⟩
      h.next = some (.cstring (c ++ [0])) := by
  constructor
  · simp [RTCIceServer.intoRaw, encodeUrlsTuple, Res.bind, encodeOptRStr,
      cstringIntoRaw, cstringNew, hc, hu, Heap.alloc]
  · simp [Heap.lookup, lookupA]

/-- Witness for C7 at credential `[107]` and username `[0]`. -/
theorem partial_failure_panics_and_leaks_witness :
    RTCIceServer.intoRaw ⟨some [107], some [0], none⟩ emptyHeap =
      .panic ⟨1, [(0, .cstring [107, 0])]⟩ ∧
    Heap.lookup ⟨1, [(0, .cstring [107, 0])]⟩ 0 =
      some (.cstring [107, 0]) :=
  partial_failure_panics_and_leaks [107] [0] emptyHeap (by decide)
    (by decide)
